import Mathlib

/-!
Verification of the snapshot-and-diff engine of the `filewatcher` repository
(`src/main.go`). The watcher keeps a map `fileStates : map[string]FileInfo`
and, on every tick, walks the watched roots, classifies each delivered path
into created / size-changed / time-changed / attributes-changed events,
unconditionally stores the freshly stat'ed record, and finally sweeps the map
for paths that were not delivered during the pass, emitting deleted events.

The embedding below models:
  * `FileInfo` (src/main.go lines 43-48) — size, modTime, mode, isDir; the
    Go values (int64, time.Time, os.FileMode) are only ever compared for
    equality, so they are embedded as `Int`, `Int`, `Nat`.
  * one walk callback invocation (`filepath.Walk` calling the closure in
    `checkChanges`, lines 108-144) as a `WalkEntry`: the delivered `path`,
    whether the walker delivered a non-nil error (`walkErr`), and the result
    of the second stat performed by `getFileInfo` (`stat : Option FileInfo`,
    `none` when `os.Stat` fails).
  * the `fileStates` map as an association list `Snapshot` with `find`/`set`
    mirroring Go map lookup and store.
  * `checkChanges` (lines 103-156) as `processAll` (the walk loop) followed
    by `deletionSweep` (lines 147-155); emitted `fmt.Printf` lines become an
    ordered list of `Event`s.
  * `initialize` (lines 65-85) which aborts on the first walk or stat error
    and stores records silently (it contains no print statement, hence the
    empty event list in its result).
  * `Start` (lines 88-100) and `main` (lines 12-23) as the startup outcome.
-/

/-- The metadata record stored per path: `FileInfo` in src/main.go lines 43-48.
`Size` embeds the int64 byte size, `ModTime` the modification timestamp
(opaque, equality-compared only), `Mode` the permission/type bits, `IsDir`
the directory flag. -/
structure FileInfo where
  Size : Int
  ModTime : Int
  Mode : Nat
  IsDir : Bool
deriving DecidableEq

/-- One line printed by the watcher, abstracted to an event with its path:
the five `fmt.Printf` shapes in `checkChanges`. -/
inductive Event where
  | created (path : String)
  | sizeChanged (path : String)
  | timeChanged (path : String)
  | attributesChanged (path : String)
  | deleted (path : String)
deriving DecidableEq

/-- The exact console line the Go code prints for an event
(src/main.go lines 125, 129, 132, 135, 151). -/
def render : Event → String
  | .created p => "File created: " ++ p
  | .sizeChanged p => "File content modified (size changed): " ++ p
  | .timeChanged p => "File modified (time changed): " ++ p
  | .attributesChanged p => "File attributes modified: " ++ p
  | .deleted p => "File deleted: " ++ p

/-- One invocation of the `filepath.Walk` callback during a pass: the path,
whether the walker handed the callback a non-nil error (`err != nil` at
line 109), and the outcome of the second stat `getFileInfo(path)` at
line 115 (`none` = the stat returned an error). -/
structure WalkEntry where
  path : String
  walkErr : Bool
  stat : Option FileInfo
deriving DecidableEq

/-- The `fileStates` map, embedded as an association list with Go-map
semantics through `Snapshot.find` and `Snapshot.set`. -/
abbrev Snapshot := List (String × FileInfo)

/-- Go map lookup `fw.fileStates[path]` (line 121): first matching key. -/
def Snapshot.find : Snapshot → String → Option FileInfo
  | [], _ => none
  | (q, i) :: rest, p => if q = p then some i else Snapshot.find rest p

/-- Go map store `fw.fileStates[path] = info` (lines 76, 140): replace the
binding in place if the key is present, otherwise add it. -/
def Snapshot.set : Snapshot → String → FileInfo → Snapshot
  | [], p, v => [(p, v)]
  | (q, i) :: rest, p, v =>
    if q = p then (q, v) :: rest else (q, i) :: Snapshot.set rest p v

/-- The key list of a snapshot (the Go map's key set). -/
def keys (s : Snapshot) : List String := s.map Prod.fst

/-- Uniqueness of keys: automatic for a Go map, an invariant here. -/
def nodupKeys (s : Snapshot) : Prop := (keys s).Nodup

/-- Number of bindings for key `p` (1 or 0 once `nodupKeys` holds). -/
def countKey (p : String) : Snapshot → Nat
  | [] => 0
  | (q, _) :: rest => (if q = p then 1 else 0) + countKey p rest

/-- Membership test on the `currentFiles` set
(`_, exists := currentFiles[path]`, line 150). -/
def memb (p : String) : List String → Bool
  | [] => false
  | q :: rest => if q = p then true else memb p rest

/-- The events printed for one successfully stat'ed path during a pass:
lines 124-137.  Absent from `fileStates`: one created event.  Present:
three independent comparisons of size, modTime and mode, each printing
its own line when the field differs. -/
def emitChunk (p : String) (old : Option FileInfo) (new : FileInfo) : List Event :=
  match old with
  | none => [Event.created p]
  | some o =>
    (if o.Size = new.Size then [] else [Event.sizeChanged p]) ++
    (if o.ModTime = new.ModTime then [] else [Event.timeChanged p]) ++
    (if o.Mode = new.Mode then [] else [Event.attributesChanged p])

/-- The mutable state threaded through one pass of `checkChanges`:
the `currentFiles` set, the `fileStates` map, and the output printed so far. -/
structure PassState where
  currentFiles : List String
  fileStates : Snapshot
  events : List Event
deriving DecidableEq

/-- The body of the walk callback in `checkChanges` (lines 108-144).
A walker error skips the path entirely; otherwise the path is added to
`currentFiles` BEFORE the second stat, so a path whose `getFileInfo` fails
still counts as observed; on a successful stat the events are printed and
the record is stored unconditionally. -/
def processEntry (st : PassState) (e : WalkEntry) : PassState :=
  if e.walkErr then st
  else
    match e.stat with
    | none => { st with currentFiles := e.path :: st.currentFiles }
    | some newInfo =>
      { currentFiles := e.path :: st.currentFiles
        fileStates := Snapshot.set st.fileStates e.path newInfo
        events := st.events ++ emitChunk e.path (Snapshot.find st.fileStates e.path) newInfo }

/-- The walk loop of `checkChanges` over the concatenated walk output of all
watched roots. -/
def processAll : PassState → List WalkEntry → PassState
  | st, [] => st
  | st, e :: rest => processAll (processEntry st e) rest

/-- The deletion sweep (lines 147-155): every key of `fileStates` not in
`currentFiles` prints a deleted event and is removed. -/
def deletionSweep (cf : List String) : Snapshot → Snapshot × List Event
  | [] => ([], [])
  | (q, i) :: rest =>
    let r := deletionSweep cf rest
    if memb q cf then ((q, i) :: r.1, r.2) else (r.1, Event.deleted q :: r.2)

/-- One full periodic pass: `checkChanges` (lines 103-156), given the prior
`fileStates` and the walk output of the pass.  Returns the updated map and
the ordered list of printed events. -/
def checkChanges (fileStates : Snapshot) (es : List WalkEntry) : Snapshot × List Event :=
  let st := processAll ⟨[], fileStates, []⟩ es
  let r := deletionSweep st.currentFiles st.fileStates
  (r.1, st.events ++ r.2)

/-- `initialize` (lines 65-85): the seeding walk.  The callback returns the
error on a walker error or a failed stat, which aborts the walk and is
returned to the caller (`none` here); otherwise every record is stored
silently.  The event-list component is empty on every path because the
function contains no print statement. -/
def initializeWatcher : Snapshot → List WalkEntry → Option (Snapshot × List Event)
  | s, [] => some (s, [])
  | s, e :: rest =>
    if e.walkErr then none
    else
      match e.stat with
      | none => none
      | some info => initializeWatcher (Snapshot.set s e.path info) rest

/-- An entry on which the seeding walk aborts: walker error or failed stat. -/
def badEntry (e : WalkEntry) : Bool := e.walkErr || e.stat.isNone

/-- What `Start` (lines 88-100) does: return the initialization error, or
enter the ticker loop forever (its `return nil` is unreachable). -/
inductive StartOutcome where
  | returnsError
  | ticksForever
deriving DecidableEq

/-- `Start` given the walk output of the seeding pass. -/
def Start (es : List WalkEntry) : StartOutcome :=
  if (initializeWatcher [] es).isSome then StartOutcome.ticksForever
  else StartOutcome.returnsError

/-- Startup outcome of `main` (lines 12-23). -/
inductive StartupOutcome where
  | fatalNoDirs
  | fatalInitError
  | running
deriving DecidableEq

/-- `main` (lines 12-23): `log.Fatal` when no directory argument is given
(`len(os.Args) < 2`), `log.Fatal(err)` when `Start` returns the
initialization error, and otherwise the watcher keeps running. -/
def mainStartup (dirs : List String) (es : List WalkEntry) : StartupOutcome :=
  if dirs.isEmpty then StartupOutcome.fatalNoDirs
  else
    match Start es with
    | StartOutcome.returnsError => StartupOutcome.fatalInitError
    | StartOutcome.ticksForever => StartupOutcome.running

/-- Occurrence count of one event in an output list. -/
def countEv (ev : Event) : List Event → Nat
  | [] => 0
  | e :: rest => (if e = ev then 1 else 0) + countEv ev rest

/-- A successful observation of path `p`: delivered without walker error and
stat'ed successfully. -/
def obsb (p : String) (e : WalkEntry) : Bool :=
  if e.walkErr then false else if e.path = p then e.stat.isSome else false

/-- Path `p` is listed during the pass (delivered without walker error),
i.e. lands in `currentFiles`, whether or not its stat succeeds. -/
def listedb (p : String) : List WalkEntry → Bool
  | [] => false
  | e :: rest =>
    if e.walkErr then listedb p rest
    else if e.path = p then true else listedb p rest

/-- The evolution of `fileStates[p]` along the walk output of one pass:
each successful observation of `p` overwrites the record (last write wins). -/
def statefulLast (p : String) : Option FileInfo → List WalkEntry → Option FileInfo
  | f, [] => f
  | f, e :: rest =>
    if e.walkErr then statefulLast p f rest
    else if e.path = p then
      match e.stat with
      | none => statefulLast p f rest
      | some info => statefulLast p (some info) rest
    else statefulLast p f rest

/-- Abstract per-path event counter: `emit old new` is how many copies of a
fixed event one successful observation of `p` prints, given the record `old`
it finds and the record `new` it stores. -/
def evCount (emit : Option FileInfo → FileInfo → Nat) (p : String) :
    Option FileInfo → List WalkEntry → Nat
  | _, [] => 0
  | f, e :: rest =>
    if e.walkErr then evCount emit p f rest
    else if e.path = p then
      match e.stat with
      | none => evCount emit p f rest
      | some info => emit f info + evCount emit p (some info) rest
    else evCount emit p f rest

/-- Created events printed for one observation of the tracked path. -/
def emitCreated : Option FileInfo → FileInfo → Nat
  | none, _ => 1
  | some _, _ => 0

/-- Size-changed events printed for one observation of the tracked path. -/
def emitSizeChanged : Option FileInfo → FileInfo → Nat
  | none, _ => 0
  | some o, n => if o.Size = n.Size then 0 else 1

/-- Time-changed events printed for one observation of the tracked path. -/
def emitTimeChanged : Option FileInfo → FileInfo → Nat
  | none, _ => 0
  | some o, n => if o.ModTime = n.ModTime then 0 else 1

/-- Attributes-changed events printed for one observation of the tracked path. -/
def emitAttrChanged : Option FileInfo → FileInfo → Nat
  | none, _ => 0
  | some o, n => if o.Mode = n.Mode then 0 else 1

/-- Overwrite the directory flag of a record, leaving size, modTime and mode
untouched (used to state that classification never consults `IsDir`). -/
def setDir (b : Bool) (i : FileInfo) : FileInfo :=
  { i with IsDir := b }

/-- Overwrite the directory flag of every record in a snapshot. -/
def setDirSnap (b : Bool) (s : Snapshot) : Snapshot :=
  s.map (fun qi => (qi.1, setDir b qi.2))

/-- Overwrite the directory flag of the stat result of one walk entry. -/
def setDirEntry (b : Bool) (e : WalkEntry) : WalkEntry :=
  { e with stat := e.stat.map (setDir b) }

/-- Overwrite the directory flag throughout a pass's walk output. -/
def setDirEntries (b : Bool) (es : List WalkEntry) : List WalkEntry :=
  es.map (setDirEntry b)

/-- The walk output of a pass over a filesystem identical to snapshot `s`:
every path of `s` delivered without error and stat'ed to exactly its
recorded metadata. -/
def toEntries (s : Snapshot) : List WalkEntry :=
  s.map (fun qi => { path := qi.1, walkErr := false, stat := some qi.2 })

section MapLemmas

theorem find_set (s : Snapshot) (p q : String) (v : FileInfo) :
    Snapshot.find (Snapshot.set s p v) q =
      if p = q then some v else Snapshot.find s q := by
  induction s with
  | nil => simp [Snapshot.set, Snapshot.find]
  | cons hd tl ih =>
    obtain ⟨q0, i0⟩ := hd
    by_cases h0 : q0 = p
    · subst h0
      simp only [Snapshot.set, if_pos rfl, Snapshot.find]
      by_cases hq : q0 = q
      · subst hq; simp [Snapshot.find]
      · simp [Snapshot.find, hq]
    · simp only [Snapshot.set, if_neg h0, Snapshot.find]
      by_cases hq : q0 = q
      · subst hq
        have hpq : ¬ (p = q0) := fun h => h0 h.symm
        simp [hpq]
      · simp [hq, ih]

theorem set_same (s : Snapshot) (p : String) (v : FileInfo)
    (h : Snapshot.find s p = some v) : Snapshot.set s p v = s := by
  induction s with
  | nil => simp [Snapshot.find] at h
  | cons hd tl ih =>
    obtain ⟨q0, i0⟩ := hd
    by_cases h0 : q0 = p
    · subst h0
      simp [Snapshot.find] at h
      simp [Snapshot.set, h]
    · simp [Snapshot.find, h0] at h
      simp [Snapshot.set, h0, ih h]

theorem keys_cons (q : String) (i : FileInfo) (tl : Snapshot) :
    keys ((q, i) :: tl) = q :: keys tl := rfl

theorem nodupKeys_cons (q : String) (i : FileInfo) (tl : Snapshot) :
    nodupKeys ((q, i) :: tl) ↔ q ∉ keys tl ∧ nodupKeys tl := by
  unfold nodupKeys
  rw [keys_cons, List.nodup_cons]

theorem find_none_iff_countKey (s : Snapshot) (p : String) :
    Snapshot.find s p = none ↔ countKey p s = 0 := by
  induction s with
  | nil => simp [Snapshot.find, countKey]
  | cons hd tl ih =>
    obtain ⟨q0, i0⟩ := hd
    by_cases h0 : q0 = p
    · subst h0; simp [Snapshot.find, countKey]
    · simp [Snapshot.find, countKey, h0, ih]

theorem find_none_not_mem_keys (s : Snapshot) (p : String)
    (h : Snapshot.find s p = none) : p ∉ keys s := by
  induction s with
  | nil => simp [keys]
  | cons hd tl ih =>
    obtain ⟨q0, i0⟩ := hd
    by_cases h0 : q0 = p
    · subst h0; simp [Snapshot.find] at h
    · simp [Snapshot.find, h0] at h
      rw [keys_cons]
      intro hmem
      rcases List.mem_cons.mp hmem with h1 | h1
      · exact h0 h1.symm
      · exact ih h h1

theorem mem_keys_of_find_some (s : Snapshot) (p : String) (v : FileInfo)
    (h : Snapshot.find s p = some v) : p ∈ keys s := by
  induction s with
  | nil => simp [Snapshot.find] at h
  | cons hd tl ih =>
    obtain ⟨q0, i0⟩ := hd
    rw [keys_cons]
    by_cases h0 : q0 = p
    · subst h0; exact List.mem_cons_self _ _
    · simp [Snapshot.find, h0] at h
      exact List.mem_cons_of_mem _ (ih h)

theorem not_mem_keys_countKey_zero (s : Snapshot) (p : String)
    (h : p ∉ keys s) : countKey p s = 0 := by
  induction s with
  | nil => simp [countKey]
  | cons hd tl ih =>
    obtain ⟨q0, i0⟩ := hd
    rw [keys_cons] at h
    have h1 : q0 ≠ p := fun he => h (he ▸ List.mem_cons_self _ _)
    have h2 : p ∉ keys tl := fun hm => h (List.mem_cons_of_mem _ hm)
    simp [countKey, h1, ih h2]

theorem find_some_countKey_one (s : Snapshot) (p : String) (v : FileInfo)
    (hnd : nodupKeys s) (h : Snapshot.find s p = some v) : countKey p s = 1 := by
  induction s with
  | nil => simp [Snapshot.find] at h
  | cons hd tl ih =>
    obtain ⟨q0, i0⟩ := hd
    obtain ⟨hq0, hnd'⟩ := (nodupKeys_cons q0 i0 tl).mp hnd
    by_cases h0 : q0 = p
    · subst h0
      have hz : countKey q0 tl = 0 := not_mem_keys_countKey_zero tl q0 hq0
      simp [countKey, hz]
    · simp [Snapshot.find, h0] at h
      simp [countKey, h0, ih hnd' h]

theorem keys_set (s : Snapshot) (p : String) (v : FileInfo) :
    keys (Snapshot.set s p v) =
      if Snapshot.find s p = none then keys s ++ [p] else keys s := by
  induction s with
  | nil => simp [Snapshot.set, Snapshot.find, keys]
  | cons hd tl ih =>
    obtain ⟨q0, i0⟩ := hd
    by_cases h0 : q0 = p
    · subst h0
      simp [Snapshot.set, Snapshot.find, keys]
    · simp only [Snapshot.set, if_neg h0, Snapshot.find, if_neg h0]
      rw [keys_cons, keys_cons, ih]
      by_cases hf : Snapshot.find tl p = none
      · simp [hf]
      · simp [hf]

theorem nodup_set (s : Snapshot) (p : String) (v : FileInfo)
    (hnd : nodupKeys s) : nodupKeys (Snapshot.set s p v) := by
  unfold nodupKeys
  rw [keys_set]
  by_cases hf : Snapshot.find s p = none
  · rw [if_pos hf]
    have hpk : p ∉ keys s := find_none_not_mem_keys s p hf
    exact List.Nodup.append hnd (List.nodup_singleton p)
      (by simpa [List.disjoint_singleton] using hpk)
  · rw [if_neg hf]; exact hnd

theorem find_mem_nodup (s : Snapshot) (p : String) (v : FileInfo)
    (hnd : nodupKeys s) (hmem : (p, v) ∈ s) : Snapshot.find s p = some v := by
  induction s with
  | nil => simp at hmem
  | cons hd tl ih =>
    obtain ⟨q0, i0⟩ := hd
    obtain ⟨hq0, hnd'⟩ := (nodupKeys_cons q0 i0 tl).mp hnd
    rcases List.mem_cons.mp hmem with h1 | h1
    · obtain ⟨he1, he2⟩ := Prod.mk.injEq .. ▸ h1
      · simp [Snapshot.find, he1.symm, he2]
    · by_cases h0 : q0 = p
      · subst h0
        exact absurd (by simpa [keys] using List.mem_map_of_mem Prod.fst h1) hq0
      · simp [Snapshot.find, h0, ih hnd' h1]

end MapLemmas

section PassLemmas

theorem countEv_append (ev : Event) (l1 l2 : List Event) :
    countEv ev (l1 ++ l2) = countEv ev l1 + countEv ev l2 := by
  induction l1 with
  | nil => simp [countEv]
  | cons e rest ih => simp [countEv, ih]; omega

theorem emitChunk_count_created (p q : String) (f : Option FileInfo) (info : FileInfo) :
    countEv (Event.created p) (emitChunk q f info)
      = if q = p then emitCreated f info else 0 := by
  cases f with
  | none => by_cases h : q = p <;> simp [emitChunk, emitCreated, countEv, h]
  | some o =>
    by_cases h : q = p <;>
      simp only [emitChunk, emitCreated, if_pos, if_neg, h] <;>
      split_ifs <;> simp [countEv, countEv_append]

theorem emitChunk_count_size (p q : String) (f : Option FileInfo) (info : FileInfo) :
    countEv (Event.sizeChanged p) (emitChunk q f info)
      = if q = p then emitSizeChanged f info else 0 := by
  cases f with
  | none => by_cases h : q = p <;> simp [emitChunk, emitSizeChanged, countEv, h]
  | some o =>
    by_cases h : q = p <;>
      simp only [emitChunk, emitSizeChanged] <;>
      split_ifs <;> simp_all [countEv, countEv_append]

theorem emitChunk_count_time (p q : String) (f : Option FileInfo) (info : FileInfo) :
    countEv (Event.timeChanged p) (emitChunk q f info)
      = if q = p then emitTimeChanged f info else 0 := by
  cases f with
  | none => by_cases h : q = p <;> simp [emitChunk, emitTimeChanged, countEv, h]
  | some o =>
    by_cases h : q = p <;>
      simp only [emitChunk, emitTimeChanged] <;>
      split_ifs <;> simp_all [countEv, countEv_append]

theorem emitChunk_count_attr (p q : String) (f : Option FileInfo) (info : FileInfo) :
    countEv (Event.attributesChanged p) (emitChunk q f info)
      = if q = p then emitAttrChanged f info else 0 := by
  cases f with
  | none => by_cases h : q = p <;> simp [emitChunk, emitAttrChanged, countEv, h]
  | some o =>
    by_cases h : q = p <;>
      simp only [emitChunk, emitAttrChanged] <;>
      split_ifs <;> simp_all [countEv, countEv_append]

theorem emitChunk_count_deleted (p q : String) (f : Option FileInfo) (info : FileInfo) :
    countEv (Event.deleted p) (emitChunk q f info)
      = if q = p then (fun _ _ => 0) f info else 0 := by
  cases f with
  | none => by_cases h : q = p <;> simp [emitChunk, countEv, h]
  | some o =>
    by_cases h : q = p <;>
      simp only [emitChunk] <;>
      split_ifs <;> simp_all [countEv, countEv_append]

theorem processAll_countEv (ev : Event) (p : String)
    (emit : Option FileInfo → FileInfo → Nat)
    (H : ∀ q f info, countEv ev (emitChunk q f info) = if q = p then emit f info else 0) :
    ∀ (es : List WalkEntry) (st : PassState),
      countEv ev (processAll st es).events
        = countEv ev st.events + evCount emit p (Snapshot.find st.fileStates p) es := by
  intro es
  induction es with
  | nil => intro st; simp [processAll, evCount]
  | cons e rest ih =>
    intro st
    simp only [processAll]
    rw [ih]
    by_cases hw : e.walkErr
    · simp [processEntry, hw, evCount]
    · cases hstat : e.stat with
      | none =>
        by_cases hp : e.path = p <;>
          simp [processEntry, hw, hstat, evCount, hp]
      | some info =>
        by_cases hp : e.path = p
        · simp [processEntry, hw, hstat, countEv_append, H, find_set, evCount, hp]
          omega
        · simp [processEntry, hw, hstat, countEv_append, H, find_set, evCount, hp]

theorem processAll_find (p : String) :
    ∀ (es : List WalkEntry) (st : PassState),
      Snapshot.find (processAll st es).fileStates p
        = statefulLast p (Snapshot.find st.fileStates p) es := by
  intro es
  induction es with
  | nil => intro st; simp [processAll, statefulLast]
  | cons e rest ih =>
    intro st
    simp only [processAll]
    rw [ih]
    by_cases hw : e.walkErr
    · simp [processEntry, hw, statefulLast]
    · cases hstat : e.stat with
      | none =>
        by_cases hp : e.path = p <;>
          simp [processEntry, hw, hstat, statefulLast, hp]
      | some info =>
        by_cases hp : e.path = p <;>
          simp [processEntry, hw, hstat, statefulLast, hp, find_set]

theorem processAll_memb (p : String) :
    ∀ (es : List WalkEntry) (st : PassState),
      memb p (processAll st es).currentFiles
        = (memb p st.currentFiles || listedb p es) := by
  intro es
  induction es with
  | nil => intro st; simp [processAll, listedb]
  | cons e rest ih =>
    intro st
    simp only [processAll]
    rw [ih]
    by_cases hw : e.walkErr
    · simp [processEntry, hw, listedb]
    · cases hstat : e.stat with
      | none =>
        by_cases hp : e.path = p <;>
          simp [processEntry, hw, hstat, listedb, memb, hp]
      | some info =>
        by_cases hp : e.path = p <;>
          simp [processEntry, hw, hstat, listedb, memb, hp]

theorem processAll_nodup :
    ∀ (es : List WalkEntry) (st : PassState),
      nodupKeys st.fileStates → nodupKeys (processAll st es).fileStates := by
  intro es
  induction es with
  | nil => intro st h; simpa [processAll] using h
  | cons e rest ih =>
    intro st h
    simp only [processAll]
    apply ih
    by_cases hw : e.walkErr
    · simpa [processEntry, hw] using h
    · cases hstat : e.stat with
      | none => simpa [processEntry, hw, hstat] using h
      | some info =>
        simp only [processEntry, if_neg hw, hstat]
        exact nodup_set _ _ _ h

end PassLemmas

section TraceLemmas

theorem evCount_const_zero (p : String) :
    ∀ (es : List WalkEntry) (f : Option FileInfo),
      evCount (fun _ _ => 0) p f es = 0 := by
  intro es
  induction es with
  | nil => intro f; simp [evCount]
  | cons e rest ih =>
    intro f
    by_cases hw : e.walkErr
    · simp [evCount, hw, ih]
    · by_cases hp : e.path = p
      · cases hstat : e.stat <;> simp [evCount, hw, hp, hstat, ih]
      · simp [evCount, hw, hp, ih]

theorem evCount_created_some (p : String) :
    ∀ (es : List WalkEntry) (v : FileInfo),
      evCount emitCreated p (some v) es = 0 := by
  intro es
  induction es with
  | nil => intro v; simp [evCount]
  | cons e rest ih =>
    intro v
    by_cases hw : e.walkErr
    · simp [evCount, hw, ih]
    · by_cases hp : e.path = p
      · cases hstat : e.stat <;> simp [evCount, emitCreated, hw, hp, hstat, ih]
      · simp [evCount, hw, hp, ih]

theorem evCount_created_none (p : String) :
    ∀ (es : List WalkEntry),
      evCount emitCreated p none es = if es.any (obsb p) then 1 else 0 := by
  intro es
  induction es with
  | nil => simp [evCount]
  | cons e rest ih =>
    by_cases hw : e.walkErr
    · simp [evCount, hw, obsb, ih]
    · by_cases hp : e.path = p
      · cases hstat : e.stat with
        | none => simp [evCount, hw, hp, hstat, obsb, ih]
        | some info =>
          simp [evCount, hw, hp, hstat, obsb, emitCreated, evCount_created_some]
      · simp [evCount, hw, hp, obsb, ih]

theorem statefulLast_some_isSome (p : String) :
    ∀ (es : List WalkEntry) (v : FileInfo),
      (statefulLast p (some v) es).isSome = true := by
  intro es
  induction es with
  | nil => intro v; simp [statefulLast]
  | cons e rest ih =>
    intro v
    by_cases hw : e.walkErr
    · simp [statefulLast, hw, ih]
    · by_cases hp : e.path = p
      · cases hstat : e.stat <;> simp [statefulLast, hw, hp, hstat, ih]
      · simp [statefulLast, hw, hp, ih]

theorem statefulLast_obs_isSome (p : String) :
    ∀ (es : List WalkEntry) (f : Option FileInfo),
      es.any (obsb p) = true → (statefulLast p f es).isSome = true := by
  intro es
  induction es with
  | nil => intro f h; simp at h
  | cons e rest ih =>
    intro f h
    rw [List.any_cons] at h
    by_cases hw : e.walkErr
    · rw [show obsb p e = false by simp [obsb, hw], Bool.false_or] at h
      simp [statefulLast, hw, ih _ h]
    · by_cases hp : e.path = p
      · cases hstat : e.stat with
        | none =>
          rw [show obsb p e = false by simp [obsb, hw, hp, hstat], Bool.false_or] at h
          simp [statefulLast, hw, hp, hstat, ih _ h]
        | some info =>
          simp [statefulLast, hw, hp, hstat, statefulLast_some_isSome]
      · rw [show obsb p e = false by simp [obsb, hw, hp], Bool.false_or] at h
        simp [statefulLast, hw, hp, ih _ h]

theorem statefulLast_not_listed (p : String) :
    ∀ (es : List WalkEntry) (f : Option FileInfo),
      listedb p es = false → statefulLast p f es = f := by
  intro es
  induction es with
  | nil => intro f _; simp [statefulLast]
  | cons e rest ih =>
    intro f h
    by_cases hw : e.walkErr
    · simp [listedb, hw] at h
      simp [statefulLast, hw, ih _ h]
    · by_cases hp : e.path = p
      · simp [listedb, hw, hp] at h
      · simp [listedb, hw, hp] at h
        simp [statefulLast, hw, hp, ih _ h]

theorem obs_listed (p : String) :
    ∀ (es : List WalkEntry), es.any (obsb p) = true → listedb p es = true := by
  intro es
  induction es with
  | nil => intro h; simp at h
  | cons e rest ih =>
    intro h
    rw [List.any_cons] at h
    by_cases hw : e.walkErr
    · rw [show obsb p e = false by simp [obsb, hw], Bool.false_or] at h
      simp [listedb, hw, ih h]
    · by_cases hp : e.path = p
      · simp [listedb, hw, hp]
      · rw [show obsb p e = false by simp [obsb, hw, hp], Bool.false_or] at h
        simp [listedb, hw, hp, ih h]

theorem evCount_filter (emit : Option FileInfo → FileInfo → Nat) (p : String) :
    ∀ (es : List WalkEntry) (f : Option FileInfo),
      evCount emit p f es
        = evCount emit p f (es.filter (fun e => decide (e.path = p))) := by
  intro es
  induction es with
  | nil => intro f; simp [evCount]
  | cons e rest ih =>
    intro f
    by_cases hp : e.path = p
    · by_cases hw : e.walkErr
      · simp [List.filter_cons, hp, evCount, hw, ih]
      · cases hstat : e.stat <;>
          simp [List.filter_cons, hp, evCount, hw, hstat, ih]
    · simp [List.filter_cons, hp, evCount, ih]

theorem statefulLast_filter (p : String) :
    ∀ (es : List WalkEntry) (f : Option FileInfo),
      statefulLast p f es
        = statefulLast p f (es.filter (fun e => decide (e.path = p))) := by
  intro es
  induction es with
  | nil => intro f; simp [statefulLast]
  | cons e rest ih =>
    intro f
    by_cases hp : e.path = p
    · by_cases hw : e.walkErr
      · simp [List.filter_cons, hp, statefulLast, hw, ih]
      · cases hstat : e.stat <;>
          simp [List.filter_cons, hp, statefulLast, hw, hstat, ih]
    · simp [List.filter_cons, hp, statefulLast, ih]

theorem listedb_filter (p : String) :
    ∀ (es : List WalkEntry),
      listedb p es = listedb p (es.filter (fun e => decide (e.path = p))) := by
  intro es
  induction es with
  | nil => simp [listedb]
  | cons e rest ih =>
    by_cases hp : e.path = p
    · by_cases hw : e.walkErr
      · simp [List.filter_cons, hp, listedb, hw, ih]
      · simp [List.filter_cons, hp, listedb, hw]
    · simp [List.filter_cons, hp, listedb, ih]

end TraceLemmas

section SweepLemmas

theorem deletionSweep_fst (cf : List String) (s : Snapshot) :
    (deletionSweep cf s).1 = s.filter (fun qi => memb qi.1 cf) := by
  induction s with
  | nil => simp [deletionSweep]
  | cons hd tl ih =>
    obtain ⟨q, i⟩ := hd
    by_cases hm : memb q cf <;> simp [deletionSweep, hm, ih, List.filter_cons]

theorem deletionSweep_snd (cf : List String) (s : Snapshot) :
    (deletionSweep cf s).2
      = (s.filter (fun qi => !memb qi.1 cf)).map (fun qi => Event.deleted qi.1) := by
  induction s with
  | nil => simp [deletionSweep]
  | cons hd tl ih =>
    obtain ⟨q, i⟩ := hd
    by_cases hm : memb q cf <;> simp [deletionSweep, hm, ih, List.filter_cons]

theorem deletionSweep_find (cf : List String) (s : Snapshot) (p : String) :
    Snapshot.find (deletionSweep cf s).1 p
      = if memb p cf then Snapshot.find s p else none := by
  induction s with
  | nil => simp [deletionSweep, Snapshot.find]
  | cons hd tl ih =>
    obtain ⟨q, i⟩ := hd
    by_cases hm : memb q cf
    · by_cases hqp : q = p
      · subst hqp
        simp [deletionSweep, hm, Snapshot.find]
      · simp [deletionSweep, hm, Snapshot.find, hqp, ih]
    · by_cases hqp : q = p
      · subst hqp
        simp [deletionSweep, hm, Snapshot.find, ih]
      · simp [deletionSweep, hm, Snapshot.find, hqp, ih]

theorem deletionSweep_delCount (cf : List String) (s : Snapshot) (p : String) :
    countEv (Event.deleted p) (deletionSweep cf s).2
      = if memb p cf then 0 else countKey p s := by
  induction s with
  | nil => simp [deletionSweep, countEv, countKey]
  | cons hd tl ih =>
    obtain ⟨q, i⟩ := hd
    by_cases hm : memb q cf
    · by_cases hqp : q = p
      · subst hqp
        simp [deletionSweep, hm, countKey, countEv, ih, hm]
      · simp [deletionSweep, hm, countKey, countEv, ih, hqp]
    · by_cases hqp : q = p
      · subst hqp
        simp [deletionSweep, hm, countKey, countEv, ih]
      · simp [deletionSweep, hm, countKey, countEv, ih, hqp]

theorem deletionSweep_nonDel (cf : List String) (s : Snapshot) (ev : Event)
    (h : ∀ q, ev ≠ Event.deleted q) :
    countEv ev (deletionSweep cf s).2 = 0 := by
  induction s with
  | nil => simp [deletionSweep, countEv]
  | cons hd tl ih =>
    obtain ⟨q, i⟩ := hd
    by_cases hm : memb q cf
    · simp [deletionSweep, hm, ih]
    · have hne : Event.deleted q ≠ ev := fun he => (h q) he.symm
      simp [deletionSweep, hm, countEv, ih, hne]

theorem deletionSweep_nodup (cf : List String) (s : Snapshot)
    (h : nodupKeys s) : nodupKeys (deletionSweep cf s).1 := by
  rw [deletionSweep_fst]
  unfold nodupKeys keys at h ⊢
  exact h.sublist (List.Sublist.map _ (List.filter_sublist s))

end SweepLemmas

section CheckChangesLemmas

theorem checkChanges_countEv (s : Snapshot) (es : List WalkEntry) (ev : Event) :
    countEv ev (checkChanges s es).2
      = countEv ev (processAll ⟨[], s, []⟩ es).events
        + countEv ev (deletionSweep (processAll ⟨[], s, []⟩ es).currentFiles
            (processAll ⟨[], s, []⟩ es).fileStates).2 := by
  simp [checkChanges, countEv_append]

theorem checkChanges_find (s : Snapshot) (es : List WalkEntry) (p : String) :
    Snapshot.find (checkChanges s es).1 p
      = if listedb p es then statefulLast p (Snapshot.find s p) es else none := by
  unfold checkChanges
  rw [deletionSweep_find, processAll_find, processAll_memb]
  simp [memb]

end CheckChangesLemmas

section MoreHelpers

theorem listedb_false_of_all_err (p : String) :
    ∀ (es : List WalkEntry), (∀ e ∈ es, e.path = p → e.walkErr = true) →
      listedb p es = false := by
  intro es
  induction es with
  | nil => intro _; simp [listedb]
  | cons e rest ih =>
    intro h
    have hrest := fun e2 hm => h e2 (List.mem_cons_of_mem _ hm)
    by_cases hw : e.walkErr
    · simp [listedb, hw, ih hrest]
    · by_cases hp : e.path = p
      · exact absurd (h e (List.mem_cons_self _ _) hp) hw
      · simp [listedb, hw, hp, ih hrest]

theorem evCount_not_listed (emit : Option FileInfo → FileInfo → Nat) (p : String) :
    ∀ (es : List WalkEntry) (f : Option FileInfo),
      listedb p es = false → evCount emit p f es = 0 := by
  intro es
  induction es with
  | nil => intro f _; simp [evCount]
  | cons e rest ih =>
    intro f h
    by_cases hw : e.walkErr
    · simp [listedb, hw] at h
      simp [evCount, hw, ih _ h]
    · by_cases hp : e.path = p
      · simp [listedb, hw, hp] at h
      · simp [listedb, hw, hp] at h
        simp [evCount, hw, hp, ih _ h]

theorem listed_iff_obs_of_ok (p : String) :
    ∀ (es : List WalkEntry),
      (∀ e ∈ es, e.walkErr = false → e.stat.isSome = true) →
      listedb p es = es.any (obsb p) := by
  intro es
  induction es with
  | nil => intro _; simp [listedb]
  | cons e rest ih =>
    intro h
    have hrest := fun e2 hm => h e2 (List.mem_cons_of_mem _ hm)
    rw [List.any_cons]
    by_cases hw : e.walkErr
    · rw [show obsb p e = false by simp [obsb, hw], Bool.false_or]
      simp [listedb, hw, ih hrest]
    · by_cases hp : e.path = p
      · have hsome : e.stat.isSome = true :=
          h e (List.mem_cons_self _ _) (by simpa using hw)
        rw [show obsb p e = true by simp [obsb, hw, hp, hsome]]
        simp [listedb, hw, hp]
      · rw [show obsb p e = false by simp [obsb, hw, hp], Bool.false_or]
        simp [listedb, hw, hp, ih hrest]

theorem set_length_new (s : Snapshot) (p : String) (v : FileInfo)
    (h : Snapshot.find s p = none) : (Snapshot.set s p v).length = s.length + 1 := by
  induction s with
  | nil => simp [Snapshot.set]
  | cons hd tl ih =>
    obtain ⟨q, i⟩ := hd
    by_cases h0 : q = p
    · subst h0; simp [Snapshot.find] at h
    · simp [Snapshot.find, h0] at h
      simp [Snapshot.set, h0, ih h]

theorem initializeWatcher_isSome :
    ∀ (es : List WalkEntry) (s : Snapshot),
      (initializeWatcher s es).isSome = !es.any badEntry := by
  intro es
  induction es with
  | nil => intro s; simp [initializeWatcher]
  | cons e rest ih =>
    intro s
    rw [List.any_cons]
    by_cases hw : e.walkErr
    · rw [show badEntry e = true by simp [badEntry, hw]]
      simp [initializeWatcher, hw]
    · cases hstat : e.stat with
      | none =>
        rw [show badEntry e = true by simp [badEntry, hw, hstat]]
        simp [initializeWatcher, hw, hstat]
      | some info =>
        rw [show badEntry e = false by simp [badEntry, hw, hstat]]
        simp [initializeWatcher, hw, hstat, ih]

theorem initializeWatcher_spec :
    ∀ (es : List WalkEntry) (s : Snapshot),
      (es.map WalkEntry.path).Nodup →
      (∀ e ∈ es, Snapshot.find s e.path = none) →
      ∀ snap evs, initializeWatcher s es = some (snap, evs) →
        snap.length = s.length + es.length ∧ evs = [] := by
  intro es
  induction es with
  | nil =>
    intro s _ _ snap evs h
    simp [initializeWatcher] at h
    obtain ⟨h1, h2⟩ := h
    simp [← h1, ← h2]
  | cons e rest ih =>
    intro s hnd hnew snap evs h
    by_cases hw : e.walkErr
    · simp [initializeWatcher, hw] at h
    · cases hstat : e.stat with
      | none => simp [initializeWatcher, hw, hstat] at h
      | some info =>
        simp only [initializeWatcher, if_neg hw, hstat] at h
        have hnd' : (rest.map WalkEntry.path).Nodup :=
          (List.nodup_cons.mp (by simpa using hnd)).2
        have hhd : e.path ∉ rest.map WalkEntry.path :=
          (List.nodup_cons.mp (by simpa using hnd)).1
        have hnew' : ∀ e2 ∈ rest, Snapshot.find (Snapshot.set s e.path info) e2.path = none := by
          intro e2 hm
          rw [find_set]
          have hne : e.path ≠ e2.path := by
            intro he
            exact hhd (he ▸ List.mem_map_of_mem WalkEntry.path hm)
          rw [if_neg hne]
          exact hnew e2 (List.mem_cons_of_mem _ hm)
        obtain ⟨hl, he⟩ := ih (Snapshot.set s e.path info) hnd' hnew' snap evs h
        refine ⟨?_, he⟩
        rw [hl, set_length_new s e.path info (hnew e (List.mem_cons_self _ _))]
        simp [List.length_cons]
        omega

theorem memb_keys_of_mem (s : Snapshot) (q : String) (i : FileInfo)
    (h : (q, i) ∈ s) : memb q (keys s) = true := by
  induction s with
  | nil => simp at h
  | cons hd tl ih =>
    obtain ⟨q0, i0⟩ := hd
    rw [keys_cons]
    rcases List.mem_cons.mp h with h1 | h1
    · obtain ⟨he1, _⟩ := Prod.mk.injEq .. ▸ h1
      simp [memb, he1.symm]
    · by_cases h0 : q0 = q
      · simp [memb, h0]
      · simp [memb, h0, ih h1]

theorem listedb_toEntries (p : String) :
    ∀ (l : Snapshot), listedb p (toEntries l) = memb p (keys l) := by
  intro l
  induction l with
  | nil => simp [toEntries, listedb, keys, memb]
  | cons hd tl ih =>
    obtain ⟨q, i⟩ := hd
    rw [keys_cons]
    by_cases h0 : q = p
    · simp [toEntries, listedb, memb, h0]
    · simp [toEntries, listedb, memb, h0]
      simpa [toEntries] using ih

theorem processAll_unchanged (s : Snapshot) :
    ∀ (l : List (String × FileInfo)) (st : PassState),
      st.fileStates = s → (∀ qi ∈ l, Snapshot.find s qi.1 = some qi.2) →
      (processAll st (toEntries l)).events = st.events
        ∧ (processAll st (toEntries l)).fileStates = s := by
  intro l
  induction l with
  | nil => intro st hfs _; simp [toEntries, processAll, hfs]
  | cons qi rest ih =>
    intro st hfs hall
    obtain ⟨q, i⟩ := qi
    have hq : Snapshot.find s q = some i := hall (q, i) (List.mem_cons_self _ _)
    have hstep : processEntry st ⟨q, false, some i⟩ =
        { st with currentFiles := q :: st.currentFiles } := by
      have hchunk : emitChunk q (Snapshot.find st.fileStates q) i = [] := by
        rw [hfs, hq]; simp [emitChunk]
      have hset : Snapshot.set st.fileStates q i = st.fileStates := by
        rw [hfs] at *; exact set_same s q i hq
      simp [processEntry, hchunk, hset]
    have hrest := fun qi2 hm => hall qi2 (List.mem_cons_of_mem _ hm)
    simp only [toEntries, List.map_cons, processAll]
    rw [show ({ path := q, walkErr := false, stat := some i } : WalkEntry)
        = ⟨q, false, some i⟩ from rfl, hstep]
    have := ih { st with currentFiles := q :: st.currentFiles } (by simpa using hfs) hrest
    simpa [toEntries] using this

end MoreHelpers

section DirInvariance

theorem find_setDirSnap (b : Bool) (s : Snapshot) (p : String) :
    Snapshot.find (setDirSnap b s) p = (Snapshot.find s p).map (setDir b) := by
  induction s with
  | nil => simp [setDirSnap, Snapshot.find]
  | cons hd tl ih =>
    obtain ⟨q, i⟩ := hd
    simp only [setDirSnap, List.map_cons] at ih ⊢
    by_cases h0 : q = p
    · simp [Snapshot.find, h0]
    · simp [Snapshot.find, h0, ih]

theorem set_setDirSnap (b : Bool) (s : Snapshot) (p : String) (v : FileInfo) :
    Snapshot.set (setDirSnap b s) p (setDir b v) = setDirSnap b (Snapshot.set s p v) := by
  induction s with
  | nil => simp [setDirSnap, Snapshot.set]
  | cons hd tl ih =>
    obtain ⟨q, i⟩ := hd
    simp only [setDirSnap, List.map_cons] at ih ⊢
    by_cases h0 : q = p
    · simp [Snapshot.set, h0]
    · simp [Snapshot.set, h0, ih]

theorem emitChunk_setDir (b : Bool) (q : String) (f : Option FileInfo) (new : FileInfo) :
    emitChunk q (f.map (setDir b)) (setDir b new) = emitChunk q f new := by
  cases f <;> simp [emitChunk, setDir]

theorem processAll_setDir (b : Bool) :
    ∀ (es : List WalkEntry) (cf : List String) (fs : Snapshot) (evs : List Event),
      processAll ⟨cf, setDirSnap b fs, evs⟩ (setDirEntries b es)
        = ⟨(processAll ⟨cf, fs, evs⟩ es).currentFiles,
           setDirSnap b (processAll ⟨cf, fs, evs⟩ es).fileStates,
           (processAll ⟨cf, fs, evs⟩ es).events⟩ := by
  intro es
  induction es with
  | nil => intro cf fs evs; simp [setDirEntries, processAll]
  | cons e rest ih =>
    intro cf fs evs
    have hcomm : processEntry ⟨cf, setDirSnap b fs, evs⟩ (setDirEntry b e)
        = ⟨(processEntry ⟨cf, fs, evs⟩ e).currentFiles,
           setDirSnap b (processEntry ⟨cf, fs, evs⟩ e).fileStates,
           (processEntry ⟨cf, fs, evs⟩ e).events⟩ := by
      by_cases hw : e.walkErr
      · simp [processEntry, setDirEntry, hw]
      · cases hstat : e.stat with
        | none => simp [processEntry, setDirEntry, hw, hstat]
        | some info =>
          simp [processEntry, setDirEntry, hw, hstat, find_setDirSnap,
            set_setDirSnap, emitChunk_setDir]
    simp only [setDirEntries, List.map_cons, processAll]
    rw [hcomm]
    have hres := ih (processEntry ⟨cf, fs, evs⟩ e).currentFiles
      (processEntry ⟨cf, fs, evs⟩ e).fileStates
      (processEntry ⟨cf, fs, evs⟩ e).events
    rw [show (setDirEntries b rest) = rest.map (setDirEntry b) from rfl] at hres
    exact hres

theorem deletionSweep_setDir (b : Bool) (cf : List String) (s : Snapshot) :
    deletionSweep cf (setDirSnap b s)
      = (setDirSnap b (deletionSweep cf s).1, (deletionSweep cf s).2) := by
  induction s with
  | nil => simp [deletionSweep, setDirSnap]
  | cons hd tl ih =>
    obtain ⟨q, i⟩ := hd
    simp only [setDirSnap, List.map_cons] at ih ⊢
    by_cases hm : memb q cf
    · simp [deletionSweep, hm, ih]
    · simp [deletionSweep, hm, ih]

theorem checkChanges_setDir (b : Bool) (s : Snapshot) (es : List WalkEntry) :
    checkChanges (setDirSnap b s) (setDirEntries b es)
      = (setDirSnap b (checkChanges s es).1, (checkChanges s es).2) := by
  simp only [checkChanges]
  rw [processAll_setDir b es [] s []]
  simp [deletionSweep_setDir]

end DirInvariance

section DeletedHelper

theorem deleted_once_helper (s : Snapshot) (es : List WalkEntry) (p : String) (v : FileInfo)
    (hnd : nodupKeys s)
    (hpresent : Snapshot.find s p = some v)
    (habsent : listedb p es = false) :
    countEv (Event.deleted p) (checkChanges s es).2 = 1
      ∧ Snapshot.find (checkChanges s es).1 p = none := by
  constructor
  · rw [checkChanges_countEv]
    rw [processAll_countEv (Event.deleted p) p (fun _ _ => 0)
      (emitChunk_count_deleted p) es ⟨[], s, []⟩]
    rw [deletionSweep_delCount, processAll_memb]
    have hsl : statefulLast p (Snapshot.find s p) es = some v := by
      rw [statefulLast_not_listed p es _ habsent, hpresent]
    have hcnt : countKey p (processAll ⟨[], s, []⟩ es).fileStates = 1 := by
      apply find_some_countKey_one _ p v
      · exact processAll_nodup es ⟨[], s, []⟩ hnd
      · rw [processAll_find]; exact hsl
    simp [memb, habsent, evCount_const_zero, countEv, hcnt]
  · rw [checkChanges_find, habsent]
    simp

end DeletedHelper

/-- C1: for every path absent from the prior Snapshot and successfully
observed (stat'ed) during a periodic pass, exactly one created event is
printed during that pass, and after the pass the Snapshot contains that path
bound to the newly observed record (the last successful stat of the pass,
`statefulLast`, which exists). -/
theorem created_event_exactly_once (s : Snapshot) (es : List WalkEntry) (p : String)
    (habs : Snapshot.find s p = none)
    (hobs : es.any (obsb p) = true) :
    countEv (Event.created p) (checkChanges s es).2 = 1
      ∧ Snapshot.find (checkChanges s es).1 p = statefulLast p none es
      ∧ (statefulLast p none es).isSome = true := by
  have hlist : listedb p es = true := obs_listed p es hobs
  refine ⟨?_, ?_, statefulLast_obs_isSome p es none hobs⟩
  · rw [checkChanges_countEv]
    rw [processAll_countEv (Event.created p) p emitCreated
      (emitChunk_count_created p) es ⟨[], s, []⟩]
    rw [deletionSweep_nonDel _ _ _ (fun q => by simp)]
    have h1 : evCount emitCreated p (Snapshot.find s p) es = 1 := by
      rw [habs, evCount_created_none, if_pos hobs]
    simp [countEv, h1]
  · rw [checkChanges_find, hlist, habs]
    simp

/-- C2: for every path present in the prior Snapshot and absent from a
pass's observed set (`currentFiles`), exactly one deleted event is printed
by that pass's deletion sweep and the path is removed from the Snapshot. -/
theorem deleted_event_exactly_once (s : Snapshot) (es : List WalkEntry) (p : String)
    (v : FileInfo) (hnd : nodupKeys s)
    (hpresent : Snapshot.find s p = some v)
    (habsent : listedb p es = false) :
    countEv (Event.deleted p) (checkChanges s es).2 = 1
      ∧ Snapshot.find (checkChanges s es).1 p = none :=
  deleted_once_helper s es p v hnd hpresent habsent

/-- C3: if a path becomes unreadable between listing and stat during a
periodic pass (the walker only delivers it with a non-nil error), the path
is omitted from that pass's observed set, the pass prints no
created/changed event for it and surfaces no error (`checkChanges` has no
error output at all), and the deletion sweep of that completed pass prints
exactly one deleted event for it, removing it from the Snapshot. -/
theorem transient_walk_error_reconciled (s : Snapshot) (es : List WalkEntry) (p : String)
    (v : FileInfo) (hnd : nodupKeys s)
    (hpresent : Snapshot.find s p = some v)
    (herr : ∀ e ∈ es, e.path = p → e.walkErr = true) :
    listedb p es = false
      ∧ countEv (Event.deleted p) (checkChanges s es).2 = 1
      ∧ Snapshot.find (checkChanges s es).1 p = none
      ∧ countEv (Event.created p) (checkChanges s es).2 = 0
      ∧ countEv (Event.sizeChanged p) (checkChanges s es).2 = 0
      ∧ countEv (Event.timeChanged p) (checkChanges s es).2 = 0
      ∧ countEv (Event.attributesChanged p) (checkChanges s es).2 = 0 := by
  have habsent : listedb p es = false := listedb_false_of_all_err p es herr
  obtain ⟨h1, h2⟩ := deleted_once_helper s es p v hnd hpresent habsent
  refine ⟨habsent, h1, h2, ?_, ?_, ?_, ?_⟩
  · rw [checkChanges_countEv]
    rw [processAll_countEv (Event.created p) p emitCreated
      (emitChunk_count_created p) es ⟨[], s, []⟩]
    rw [deletionSweep_nonDel _ _ _ (fun q => by simp)]
    have hz := evCount_not_listed emitCreated p es (Snapshot.find s p) habsent
    simp [countEv, hz]
  · rw [checkChanges_countEv]
    rw [processAll_countEv (Event.sizeChanged p) p emitSizeChanged
      (emitChunk_count_size p) es ⟨[], s, []⟩]
    rw [deletionSweep_nonDel _ _ _ (fun q => by simp)]
    have hz := evCount_not_listed emitSizeChanged p es (Snapshot.find s p) habsent
    simp [countEv, hz]
  · rw [checkChanges_countEv]
    rw [processAll_countEv (Event.timeChanged p) p emitTimeChanged
      (emitChunk_count_time p) es ⟨[], s, []⟩]
    rw [deletionSweep_nonDel _ _ _ (fun q => by simp)]
    have hz := evCount_not_listed emitTimeChanged p es (Snapshot.find s p) habsent
    simp [countEv, hz]
  · rw [checkChanges_countEv]
    rw [processAll_countEv (Event.attributesChanged p) p emitAttrChanged
      (emitChunk_count_attr p) es ⟨[], s, []⟩]
    rw [deletionSweep_nonDel _ _ _ (fun q => by simp)]
    have hz := evCount_not_listed emitAttrChanged p es (Snapshot.find s p) habsent
    simp [countEv, hz]

/-- C4 as stated is false on the code: a path that is listed by the walker
but whose second stat (`getFileInfo`) fails is added to `currentFiles`
before the stat, so it is not deleted by the sweep and its stale record
survives the pass even though the path was never successfully observed.
Concretely, with prior Snapshot `{"a"}` and a pass whose only entry is "a"
delivered without walker error but with a failed stat, "a" is still a key
of the Snapshot after the pass while the set of successfully observed paths
is empty. -/
theorem snapshot_keyset_counterexample :
    Snapshot.find
        (checkChanges [("a", ⟨0, 0, 0, false⟩)]
          [⟨"a", false, none⟩]).1 "a"
        = some ⟨0, 0, 0, false⟩
      ∧ ([⟨"a", false, none⟩] : List WalkEntry).any (obsb "a") = false := by
  constructor
  · rfl
  · rfl

/-- C4 amended: after a completed pass in which every listed path was also
successfully stat'ed (no stat failure races), the Snapshot's key set
exactly equals the set of paths successfully observed during that pass
(a path is a key iff it was observed), and keys are unique. -/
theorem snapshot_keyset_amended (s : Snapshot) (es : List WalkEntry) (p : String)
    (hnd : nodupKeys s)
    (hok : ∀ e ∈ es, e.walkErr = false → e.stat.isSome = true) :
    nodupKeys (checkChanges s es).1
      ∧ (Snapshot.find (checkChanges s es).1 p ≠ none ↔ es.any (obsb p) = true) := by
  constructor
  · exact deletionSweep_nodup _ _ (processAll_nodup es ⟨[], s, []⟩ hnd)
  · rw [checkChanges_find, listed_iff_obs_of_ok p es hok]
    cases hobs : es.any (obsb p) with
    | true =>
      have hne : statefulLast p (Snapshot.find s p) es ≠ none :=
        Option.ne_none_iff_isSome.mpr (statefulLast_obs_isSome p es _ hobs)
      simp [hne]
    | false => simp

/-- C5: if the walk output of a pass is identical to the prior Snapshot
(same paths, each stat'ed to exactly its recorded size, modTime, mode and
isDir), the pass prints zero events. -/
theorem unchanged_pass_no_events (s : Snapshot) (hnd : nodupKeys s) :
    (checkChanges s (toEntries s)).2 = [] := by
  have hall : ∀ qi ∈ s, Snapshot.find s qi.1 = some qi.2 := by
    intro qi hm
    obtain ⟨q, i⟩ := qi
    exact find_mem_nodup s q i hnd hm
  obtain ⟨hev, hfs⟩ := processAll_unchanged s s ⟨[], s, []⟩ rfl hall
  simp only [checkChanges]
  rw [hev, deletionSweep_snd]
  have hfil : (processAll ⟨[], s, []⟩ (toEntries s)).fileStates.filter
      (fun qi => !memb qi.1 (processAll ⟨[], s, []⟩ (toEntries s)).currentFiles) = [] := by
    rw [List.filter_eq_nil_iff]
    intro qi hm
    rw [hfs] at hm
    obtain ⟨q, i⟩ := qi
    have hmemb : memb q (processAll ⟨[], s, []⟩ (toEntries s)).currentFiles = true := by
      rw [processAll_memb, listedb_toEntries]
      simp [memb_keys_of_mem s q i hm]
    simp [hmemb]
  rw [hfil]
  simp

/-- C6: a path present in prior Snapshot and walk output whose size differs
while modTime and mode are unchanged produces exactly one size-changed
event and no time-changed or attributes-changed event: the three change
comparisons are independent. -/
theorem size_change_independent (s : Snapshot) (es : List WalkEntry) (p : String)
    (old new : FileInfo)
    (hf : Snapshot.find s p = some old)
    (hfil : es.filter (fun e => decide (e.path = p)) = [⟨p, false, some new⟩])
    (hsz : old.Size ≠ new.Size) (hmt : old.ModTime = new.ModTime)
    (hmd : old.Mode = new.Mode) :
    countEv (Event.sizeChanged p) (checkChanges s es).2 = 1
      ∧ countEv (Event.timeChanged p) (checkChanges s es).2 = 0
      ∧ countEv (Event.attributesChanged p) (checkChanges s es).2 = 0 := by
  refine ⟨?_, ?_, ?_⟩
  · rw [checkChanges_countEv]
    rw [processAll_countEv (Event.sizeChanged p) p emitSizeChanged
      (emitChunk_count_size p) es ⟨[], s, []⟩]
    rw [deletionSweep_nonDel _ _ _ (fun q => by simp)]
    have hev : evCount emitSizeChanged p (Snapshot.find s p) es = 1 := by
      rw [evCount_filter, hfil, hf]
      simp [evCount, emitSizeChanged, hsz]
    simp [countEv, hev]
  · rw [checkChanges_countEv]
    rw [processAll_countEv (Event.timeChanged p) p emitTimeChanged
      (emitChunk_count_time p) es ⟨[], s, []⟩]
    rw [deletionSweep_nonDel _ _ _ (fun q => by simp)]
    have hev : evCount emitTimeChanged p (Snapshot.find s p) es = 0 := by
      rw [evCount_filter, hfil, hf]
      simp [evCount, emitTimeChanged, hmt]
    simp [countEv, hev]
  · rw [checkChanges_countEv]
    rw [processAll_countEv (Event.attributesChanged p) p emitAttrChanged
      (emitChunk_count_attr p) es ⟨[], s, []⟩]
    rw [deletionSweep_nonDel _ _ _ (fun q => by simp)]
    have hev : evCount emitAttrChanged p (Snapshot.find s p) es = 0 := by
      rw [evCount_filter, hfil, hf]
      simp [evCount, emitAttrChanged, hmd]
    simp [countEv, hev]

/-- C7: initializing over a tree of N stat'able entries (distinct paths,
no walk errors) succeeds, prints zero events, and produces a Snapshot of
exactly N entries: every path is inserted silently, never reported as
created. -/
theorem initialize_roundtrip (es : List WalkEntry)
    (hok : es.any badEntry = false)
    (hnd : (es.map WalkEntry.path).Nodup) :
    ∃ snap, initializeWatcher [] es = some (snap, [])
      ∧ snap.length = es.length := by
  have h1 : (initializeWatcher [] es).isSome = true := by
    rw [initializeWatcher_isSome es [], hok]
    rfl
  obtain ⟨r, hsome⟩ := Option.isSome_iff_exists.mp h1
  obtain ⟨snap, evs⟩ := r
  obtain ⟨hl, he⟩ := initializeWatcher_spec es [] hnd (fun e _ => rfl) snap evs hsome
  subst he
  exact ⟨snap, hsome, by simpa using hl⟩

/-- C8: the process terminates fatally before any ticking begins in exactly
two startup cases: zero directories supplied, or the seeding walk hits any
walker error or failed stat; in the latter case `Start` returns the error
to `main`. Otherwise the watcher enters the ticker loop. -/
theorem startup_fatal_cases (dirs : List String) (es : List WalkEntry) :
    (mainStartup dirs es = StartupOutcome.fatalNoDirs ↔ dirs = [])
      ∧ (mainStartup dirs es = StartupOutcome.fatalInitError
          ↔ dirs ≠ [] ∧ es.any badEntry = true)
      ∧ (mainStartup dirs es = StartupOutcome.running
          ↔ dirs ≠ [] ∧ es.any badEntry = false)
      ∧ (Start es = StartOutcome.returnsError ↔ es.any badEntry = true) := by
  have hs : (initializeWatcher [] es).isSome = !es.any badEntry :=
    initializeWatcher_isSome es []
  by_cases hd : dirs = []
  · subst hd
    cases hb : es.any badEntry <;> simp [mainStartup, Start, hs, hb]
  · have hne : dirs.isEmpty = false := by
      cases dirs with
      | nil => exact absurd rfl hd
      | cons a l => rfl
    cases hb : es.any badEntry <;> simp [mainStartup, Start, hs, hb, hne, hd]

/-- C10: event classification never consults the isDir flag.  Overwriting
every directory flag in the prior Snapshot and in the walk output leaves
the pass's printed events unchanged (so directories produce exactly the
same messages as regular files), and a path whose isDir flips while size,
modTime and mode stay equal prints no event at all. -/
theorem isdir_not_consulted (b : Bool) (s : Snapshot) (es : List WalkEntry)
    (p : String) (old new : FileInfo)
    (hf : Snapshot.find s p = some old)
    (hfil : es.filter (fun e => decide (e.path = p)) = [⟨p, false, some new⟩])
    (hsz : old.Size = new.Size) (hmt : old.ModTime = new.ModTime)
    (hmd : old.Mode = new.Mode) (hdir : old.IsDir ≠ new.IsDir) :
    (checkChanges (setDirSnap b s) (setDirEntries b es)).2 = (checkChanges s es).2
      ∧ countEv (Event.created p) (checkChanges s es).2 = 0
      ∧ countEv (Event.sizeChanged p) (checkChanges s es).2 = 0
      ∧ countEv (Event.timeChanged p) (checkChanges s es).2 = 0
      ∧ countEv (Event.attributesChanged p) (checkChanges s es).2 = 0
      ∧ countEv (Event.deleted p) (checkChanges s es).2 = 0 := by
  have hlst : listedb p es = true := by
    rw [listedb_filter, hfil]
    simp [listedb]
  refine ⟨?_, ?_, ?_, ?_, ?_, ?_⟩
  · rw [checkChanges_setDir]
  · rw [checkChanges_countEv]
    rw [processAll_countEv (Event.created p) p emitCreated
      (emitChunk_count_created p) es ⟨[], s, []⟩]
    rw [deletionSweep_nonDel _ _ _ (fun q => by simp)]
    have hev : evCount emitCreated p (Snapshot.find s p) es = 0 := by
      rw [hf]
      exact evCount_created_some p es old
    simp [countEv, hev]
  · rw [checkChanges_countEv]
    rw [processAll_countEv (Event.sizeChanged p) p emitSizeChanged
      (emitChunk_count_size p) es ⟨[], s, []⟩]
    rw [deletionSweep_nonDel _ _ _ (fun q => by simp)]
    have hev : evCount emitSizeChanged p (Snapshot.find s p) es = 0 := by
      rw [evCount_filter, hfil, hf]
      simp [evCount, emitSizeChanged, hsz]
    simp [countEv, hev]
  · rw [checkChanges_countEv]
    rw [processAll_countEv (Event.timeChanged p) p emitTimeChanged
      (emitChunk_count_time p) es ⟨[], s, []⟩]
    rw [deletionSweep_nonDel _ _ _ (fun q => by simp)]
    have hev : evCount emitTimeChanged p (Snapshot.find s p) es = 0 := by
      rw [evCount_filter, hfil, hf]
      simp [evCount, emitTimeChanged, hmt]
    simp [countEv, hev]
  · rw [checkChanges_countEv]
    rw [processAll_countEv (Event.attributesChanged p) p emitAttrChanged
      (emitChunk_count_attr p) es ⟨[], s, []⟩]
    rw [deletionSweep_nonDel _ _ _ (fun q => by simp)]
    have hev : evCount emitAttrChanged p (Snapshot.find s p) es = 0 := by
      rw [evCount_filter, hfil, hf]
      simp [evCount, emitAttrChanged, hmd]
    simp [countEv, hev]
  · rw [checkChanges_countEv]
    rw [processAll_countEv (Event.deleted p) p (fun _ _ => 0)
      (emitChunk_count_deleted p) es ⟨[], s, []⟩]
    rw [deletionSweep_delCount, processAll_memb]
    simp [memb, hlst, evCount_const_zero, countEv]

/-- Witness for C1: watching starts from an empty Snapshot and a pass
observes the new path "a". -/
theorem created_event_exactly_once_witness :
    countEv (Event.created "a")
        (checkChanges [] [⟨"a", false, some ⟨5, 10, 420, false⟩⟩]).2 = 1
      ∧ Snapshot.find (checkChanges [] [⟨"a", false, some ⟨5, 10, 420, false⟩⟩]).1 "a"
          = statefulLast "a" none [⟨"a", false, some ⟨5, 10, 420, false⟩⟩]
      ∧ (statefulLast "a" none [⟨"a", false, some ⟨5, 10, 420, false⟩⟩]).isSome = true :=
  created_event_exactly_once [] [⟨"a", false, some ⟨5, 10, 420, false⟩⟩] "a"
    rfl (by rfl)

/-- Witness for C2: "a" is in the Snapshot and the pass's walk output is
empty. -/
theorem deleted_event_exactly_once_witness :
    countEv (Event.deleted "a")
        (checkChanges [("a", ⟨5, 10, 420, false⟩)] []).2 = 1
      ∧ Snapshot.find (checkChanges [("a", ⟨5, 10, 420, false⟩)] []).1 "a" = none :=
  deleted_event_exactly_once [("a", ⟨5, 10, 420, false⟩)] [] "a" ⟨5, 10, 420, false⟩
    (by simp [nodupKeys, keys]) rfl rfl

/-- Witness for C3: "a" is in the Snapshot and the walker delivers it only
with a non-nil error during the pass. -/
theorem transient_walk_error_reconciled_witness :
    listedb "a" [⟨"a", true, none⟩] = false
      ∧ countEv (Event.deleted "a")
          (checkChanges [("a", ⟨5, 10, 420, false⟩)] [⟨"a", true, none⟩]).2 = 1
      ∧ Snapshot.find (checkChanges [("a", ⟨5, 10, 420, false⟩)] [⟨"a", true, none⟩]).1 "a"
          = none
      ∧ countEv (Event.created "a")
          (checkChanges [("a", ⟨5, 10, 420, false⟩)] [⟨"a", true, none⟩]).2 = 0
      ∧ countEv (Event.sizeChanged "a")
          (checkChanges [("a", ⟨5, 10, 420, false⟩)] [⟨"a", true, none⟩]).2 = 0
      ∧ countEv (Event.timeChanged "a")
          (checkChanges [("a", ⟨5, 10, 420, false⟩)] [⟨"a", true, none⟩]).2 = 0
      ∧ countEv (Event.attributesChanged "a")
          (checkChanges [("a", ⟨5, 10, 420, false⟩)] [⟨"a", true, none⟩]).2 = 0 :=
  transient_walk_error_reconciled [("a", ⟨5, 10, 420, false⟩)] [⟨"a", true, none⟩]
    "a" ⟨5, 10, 420, false⟩ (by simp [nodupKeys, keys]) rfl
    (by intro e he _; rcases List.mem_singleton.mp he with rfl; rfl)

/-- Witness for the amended C4: one path, listed and successfully stat'ed. -/
theorem snapshot_keyset_amended_witness :
    nodupKeys (checkChanges [("a", ⟨5, 10, 420, false⟩)]
        [⟨"a", false, some ⟨5, 10, 420, false⟩⟩]).1
      ∧ (Snapshot.find (checkChanges [("a", ⟨5, 10, 420, false⟩)]
            [⟨"a", false, some ⟨5, 10, 420, false⟩⟩]).1 "a" ≠ none
          ↔ ([⟨"a", false, some ⟨5, 10, 420, false⟩⟩] : List WalkEntry).any (obsb "a")
              = true) :=
  snapshot_keyset_amended [("a", ⟨5, 10, 420, false⟩)]
    [⟨"a", false, some ⟨5, 10, 420, false⟩⟩] "a" (by simp [nodupKeys, keys])
    (by intro e he _; rcases List.mem_singleton.mp he with rfl; rfl)

/-- Witness for C5: a one-entry Snapshot walked back unchanged. -/
theorem unchanged_pass_no_events_witness :
    (checkChanges [("a", ⟨5, 10, 420, false⟩)]
        (toEntries [("a", ⟨5, 10, 420, false⟩)])).2 = [] :=
  unchanged_pass_no_events [("a", ⟨5, 10, 420, false⟩)] (by simp [nodupKeys, keys])

/-- Witness for C6: "a" grows from 5 to 7 bytes with modTime and mode
unchanged. -/
theorem size_change_independent_witness :
    countEv (Event.sizeChanged "a")
        (checkChanges [("a", ⟨5, 10, 420, false⟩)]
          [⟨"a", false, some ⟨7, 10, 420, false⟩⟩]).2 = 1
      ∧ countEv (Event.timeChanged "a")
          (checkChanges [("a", ⟨5, 10, 420, false⟩)]
            [⟨"a", false, some ⟨7, 10, 420, false⟩⟩]).2 = 0
      ∧ countEv (Event.attributesChanged "a")
          (checkChanges [("a", ⟨5, 10, 420, false⟩)]
            [⟨"a", false, some ⟨7, 10, 420, false⟩⟩]).2 = 0 :=
  size_change_independent [("a", ⟨5, 10, 420, false⟩)]
    [⟨"a", false, some ⟨7, 10, 420, false⟩⟩] "a" ⟨5, 10, 420, false⟩ ⟨7, 10, 420, false⟩
    rfl (by rfl) (by decide) rfl rfl

/-- Witness for C7: a two-entry tree seeds a two-entry Snapshot with no
events. -/
theorem initialize_roundtrip_witness :
    ∃ snap, initializeWatcher []
        [⟨"a", false, some ⟨5, 10, 420, false⟩⟩, ⟨"b", false, some ⟨6, 11, 493, true⟩⟩]
        = some (snap, [])
      ∧ snap.length
          = ([⟨"a", false, some ⟨5, 10, 420, false⟩⟩,
              ⟨"b", false, some ⟨6, 11, 493, true⟩⟩] : List WalkEntry).length :=
  initialize_roundtrip
    [⟨"a", false, some ⟨5, 10, 420, false⟩⟩, ⟨"b", false, some ⟨6, 11, 493, true⟩⟩]
    rfl (by simp)

/-- Witness for C10: "a" flips from file to directory with size, modTime
and mode unchanged. -/
theorem isdir_not_consulted_witness :
    (checkChanges (setDirSnap true [("a", ⟨5, 10, 420, false⟩)])
        (setDirEntries true [⟨"a", false, some ⟨5, 10, 420, true⟩⟩])).2
      = (checkChanges [("a", ⟨5, 10, 420, false⟩)]
          [⟨"a", false, some ⟨5, 10, 420, true⟩⟩]).2
      ∧ countEv (Event.created "a")
          (checkChanges [("a", ⟨5, 10, 420, false⟩)]
            [⟨"a", false, some ⟨5, 10, 420, true⟩⟩]).2 = 0
      ∧ countEv (Event.sizeChanged "a")
          (checkChanges [("a", ⟨5, 10, 420, false⟩)]
            [⟨"a", false, some ⟨5, 10, 420, true⟩⟩]).2 = 0
      ∧ countEv (Event.timeChanged "a")
          (checkChanges [("a", ⟨5, 10, 420, false⟩)]
            [⟨"a", false, some ⟨5, 10, 420, true⟩⟩]).2 = 0
      ∧ countEv (Event.attributesChanged "a")
          (checkChanges [("a", ⟨5, 10, 420, false⟩)]
            [⟨"a", false, some ⟨5, 10, 420, true⟩⟩]).2 = 0
      ∧ countEv (Event.deleted "a")
          (checkChanges [("a", ⟨5, 10, 420, false⟩)]
            [⟨"a", false, some ⟨5, 10, 420, true⟩⟩]).2 = 0 :=
  isdir_not_consulted true [("a", ⟨5, 10, 420, false⟩)]
    [⟨"a", false, some ⟨5, 10, 420, true⟩⟩] "a" ⟨5, 10, 420, false⟩ ⟨5, 10, 420, true⟩
    rfl (by rfl) rfl rfl rfl (by decide)
